import Mathlib

/-!
Verification of the bulk image-generation pipeline: data model, character
context resolver, orchestration loop, artifact bundler and image-payload
extraction, embedded shallowly from the TypeScript source, with theorems
settling the specified properties.
-/

set_option maxHeartbeats 1000000

namespace VisionBulk

/-! ## JavaScript string primitives

`jsIncludes hay needle` models `hay.includes(needle)`, `jsSplit`
models `s.split(sep)` for a one-character separator, `joinSep` models
`Array.prototype.join`, and `jsOrString` models `a || b` on strings
(the empty string is falsy). -/

def isPrefixChars : List Char → List Char → Bool
  | [], _ => true
  | _ :: _, [] => false
  | a :: as, b :: bs => a == b && isPrefixChars as bs

def containsChars (needle : List Char) : List Char → Bool
  | [] => isPrefixChars needle []
  | b :: bs => isPrefixChars needle (b :: bs) || containsChars needle bs

def jsIncludes (hay needle : String) : Bool :=
  containsChars needle.data hay.data

def jsSplit (sep : Char) : List Char → List (List Char)
  | [] => [[]]
  | c :: rest =>
    if c = sep then [] :: jsSplit sep rest
    else
      match jsSplit sep rest with
      | [] => [[c]]
      | h :: t => (c :: h) :: t

def joinSep (sep : String) : List String → String
  | [] => ""
  | [x] => x
  | x :: y :: rest => x ++ sep ++ joinSep sep (y :: rest)

def jsOrString (a b : String) : String :=
  if a = "" then b else a

theorem isPrefixChars_iff (l₁ l₂ : List Char) :
    isPrefixChars l₁ l₂ = true ↔ l₁ <+: l₂ := by
  induction l₁ generalizing l₂ with
  | nil => simp [isPrefixChars]
  | cons a as ih =>
    cases l₂ with
    | nil => simp [isPrefixChars]
    | cons b bs =>
      simp [isPrefixChars, ih, List.cons_prefix_cons, Bool.and_eq_true,
        beq_iff_eq]

theorem containsChars_iff (needle hay : List Char) :
    containsChars needle hay = true ↔ needle <:+: hay := by
  induction hay with
  | nil =>
    simp [containsChars, isPrefixChars_iff, List.prefix_nil, List.infix_nil]
  | cons b bs ih =>
    simp only [containsChars, Bool.or_eq_true, isPrefixChars_iff, ih,
      List.infix_cons_iff]

theorem jsIncludes_iff (hay needle : String) :
    jsIncludes hay needle = true ↔ needle.data <:+: hay.data :=
  containsChars_iff needle.data hay.data

/-! ## Data model (`types.ts`) -/

inductive Status where
  | pending
  | generating
  | completed
  | error
  deriving DecidableEq, Repr, Inhabited

structure CharacterInfo where
  name : String
  description : String
  deriving DecidableEq, Repr, Inhabited

structure ScenePrompt where
  id : String
  originalText : String
  refinedPrompt : String
  presentCharacters : List String
  status : Status
  imageUrl : Option String
  error : Option String
  deriving DecidableEq, Repr, Inhabited

structure AnalysisResult where
  characters : List CharacterInfo
  visualStyle : String
  scenes : List ScenePrompt
  deriving DecidableEq, Repr, Inhabited

/-! ## Character Context Resolver (`processBulk`, the
`sceneCharacterContext` computation) -/

def charMatch (presentCharacters : List String) (c : CharacterInfo) : Bool :=
  presentCharacters.any fun name =>
    jsIncludes name.toLower c.name.toLower || jsIncludes c.name.toLower name.toLower

def charRendered (c : CharacterInfo) : String :=
  c.name ++ " (" ++ c.description ++ ")"

def sceneCharacterContext (characters : List CharacterInfo)
    (presentCharacters : List String) : String :=
  joinSep "; " ((characters.filter (charMatch presentCharacters)).map charRendered)

/-- The sentinel passed to generation when the joined context is empty:
`sceneCharacterContext || "No specific character"`. -/
def resolvedContext (characters : List CharacterInfo)
    (presentCharacters : List String) : String :=
  jsOrString (sceneCharacterContext characters presentCharacters) "No specific character"

/-- Specification-side matching condition: the character's name is,
case-insensitively, a substring of some present-characters entry, or some
entry is a substring of the name. -/
def specMatch (presentCharacters : List String) (c : CharacterInfo) : Prop :=
  ∃ entry ∈ presentCharacters,
    c.name.toLower.data <:+: entry.toLower.data ∨
      entry.toLower.data <:+: c.name.toLower.data

theorem charRendered_length (c : CharacterInfo) :
    3 ≤ (charRendered c).length := by
  simp only [charRendered, String.length_append]
  have h2 : (" (" : String).length = 2 := rfl
  have h1 : (")" : String).length = 1 := rfl
  omega

theorem length_eq_zero_iff (s : String) : s.length = 0 ↔ s = "" := by
  constructor
  · intro h
    cases s with
    | mk data =>
      cases data with
      | nil => rfl
      | cons c cs => simp [String.length] at h
  · intro h; subst h; rfl

theorem joinSep_ne_empty (sep : String) (l : List String)
    (hne : l ≠ []) (hall : ∀ x ∈ l, x ≠ "") : joinSep sep l ≠ "" := by
  match l with
  | [] => exact absurd rfl hne
  | [x] =>
    simpa [joinSep] using hall x (by simp)
  | x :: y :: rest =>
    intro hcontra
    have hx : x ≠ "" := hall x (by simp)
    have hxlen : 0 < x.length := by
      rcases Nat.eq_zero_or_pos x.length with h | h
      · exact absurd ((length_eq_zero_iff x).mp h) hx
      · exact h
    have : (joinSep sep (x :: y :: rest)).length = 0 := by
      rw [hcontra]; rfl
    simp [joinSep, String.length_append] at this
    omega

theorem charMatch_iff_specMatch (presentCharacters : List String)
    (c : CharacterInfo) :
    charMatch presentCharacters c = true ↔ specMatch presentCharacters c := by
  simp only [charMatch, specMatch, List.any_eq_true, Bool.or_eq_true,
    jsIncludes_iff]

/-- C1: a character is included in the resolved context exactly when the
bidirectional case-insensitive substring condition holds against the
present-character names; matched characters render as `Name (description)`
joined with `"; "` in sheet order; with no match the resolver yields the
fixed sentinel `"No specific character"` instead of the empty string. -/
theorem resolver_correct (characters : List CharacterInfo)
    (presentCharacters : List String) :
    (∀ c, charMatch presentCharacters c = true ↔ specMatch presentCharacters c)
    ∧ resolvedContext characters presentCharacters =
        (if characters.filter (charMatch presentCharacters) = [] then
          "No specific character"
        else
          joinSep "; " ((characters.filter (charMatch presentCharacters)).map
            charRendered)) := by
  refine ⟨fun c => charMatch_iff_specMatch presentCharacters c, ?_⟩
  by_cases hnil : characters.filter (charMatch presentCharacters) = []
  · simp [resolvedContext, sceneCharacterContext, hnil, joinSep, jsOrString]
  · have hne : (characters.filter (charMatch presentCharacters)).map charRendered ≠ [] := by
      simpa using hnil
    have hall : ∀ x ∈ (characters.filter (charMatch presentCharacters)).map charRendered,
        x ≠ "" := by
      intro x hx
      rcases List.mem_map.mp hx with ⟨c, _, rfl⟩
      intro hcontra
      have := charRendered_length c
      rw [hcontra] at this
      simp [String.length] at this
    have hjoin := joinSep_ne_empty "; " _ hne hall
    simp [resolvedContext, sceneCharacterContext, jsOrString, hnil, hjoin]

/-! ## Bulk Orchestrator (`processBulk`)

The loop mutates the shared scene list in place, one scene at a time:
set scene `i` to `generating`, build the character context, call the
image-generation collaborator, set the terminal state, then update the
progress counter.  The collaborator is modelled as an oracle giving, for
each scene index, the outcome of that scene's single call: `some url` on
success, `none` when it raises or yields no usable payload. -/

structure GenCall where
  prompt : String
  characterContext : String
  visualStyle : String
  aspect : String
  deriving DecidableEq, Repr, Inhabited

def GenOracle : Type :=
  Nat → GenCall → Option String

structure RunState where
  scenes : List ScenePrompt
  current : Nat
  total : Nat
  deriving DecidableEq, Repr, Inhabited

def modifyAt (f : ScenePrompt → ScenePrompt) : Nat → List ScenePrompt → List ScenePrompt
  | _, [] => []
  | 0, s :: rest => f s :: rest
  | n + 1, s :: rest => s :: modifyAt f n rest

def sceneAt (st : RunState) (i : Nat) : ScenePrompt :=
  (st.scenes.get? i).getD default

/-- Models the in-place update setting the status of scene `i` to
`generating`. -/
def setGenerating (i : Nat) (st : RunState) : RunState :=
  { st with scenes := modifyAt (fun s => { s with status := Status.generating }) i st.scenes }

/-- The argument record of the `generateImage` call for one scene. -/
def mkGenCall (characters : List CharacterInfo) (visualStyle aspect : String)
    (s : ScenePrompt) : GenCall :=
  { prompt := s.refinedPrompt
    characterContext := resolvedContext characters s.presentCharacters
    visualStyle := visualStyle
    aspect := aspect }

/-- Terminal update of one scene from the collaborator outcome: the
`try` branch sets `completed` and `imageUrl`, the `catch` branch sets
`error` and the generic failure message. -/
def applyOutcome (r : Option String) (s : ScenePrompt) : ScenePrompt :=
  match r with
  | some url => { s with status := Status.completed, imageUrl := some url }
  | none => { s with status := Status.error, error := some "Failed to generate image" }

def setTerminal (r : Option String) (i : Nat) (st : RunState) : RunState :=
  { st with scenes := modifyAt (applyOutcome r) i st.scenes }

/-- Models the progress update, which sets `current` to `i + 1`. -/
def setProgressCurrent (i : Nat) (st : RunState) : RunState :=
  { st with current := i + 1 }

/-- One full loop iteration for scene `i`. -/
def stepScene (gen : GenOracle) (characters : List CharacterInfo)
    (visualStyle aspect : String) (i : Nat) (st : RunState) : RunState :=
  setProgressCurrent i
    (setTerminal (gen i (mkGenCall characters visualStyle aspect (sceneAt st i))) i
      (setGenerating i st))

/-- The observable state snapshots emitted by the loop: one after each
`setResults`/`setProgress` call, three per scene. -/
def runLoop (gen : GenOracle) (characters : List CharacterInfo)
    (visualStyle aspect : String) : List Nat → RunState → List RunState
  | [], _ => []
  | i :: rest, st =>
    let st1 := setGenerating i st
    let st2 := setTerminal (gen i (mkGenCall characters visualStyle aspect (sceneAt st i))) i st1
    let st3 := setProgressCurrent i st2
    st1 :: st2 :: st3 :: runLoop gen characters visualStyle aspect rest st3

/-- The state after the loop has consumed the given index list. -/
def runEnd (gen : GenOracle) (characters : List CharacterInfo)
    (visualStyle aspect : String) : List Nat → RunState → RunState
  | [], st => st
  | i :: rest, st => runEnd gen characters visualStyle aspect rest
      (stepScene gen characters visualStyle aspect i st)

/-- The calls issued to the image-generation collaborator, with the scene
index of each. -/
def callTrace (gen : GenOracle) (characters : List CharacterInfo)
    (visualStyle aspect : String) : List Nat → RunState → List (Nat × GenCall)
  | [], _ => []
  | i :: rest, st =>
    (i, mkGenCall characters visualStyle aspect (sceneAt st i)) ::
      callTrace gen characters visualStyle aspect rest
        (stepScene gen characters visualStyle aspect i st)

/-- Models the start of a run: every scene of the analysis result is reset
to `pending` and the progress counter is set to zero out of the scene
count. -/
def initRun (analysis : AnalysisResult) : RunState :=
  let updatedScenes := analysis.scenes.map fun s => { s with status := Status.pending }
  { scenes := updatedScenes, current := 0, total := updatedScenes.length }

/-- All observable states of a run, in order: the normalized initial state
followed by the loop's snapshots. -/
def runTrace (gen : GenOracle) (analysis : AnalysisResult) (aspect : String) :
    List RunState :=
  let st0 := initRun analysis
  st0 :: runLoop gen analysis.characters analysis.visualStyle aspect
    (List.range st0.scenes.length) st0

/-- The state in which the scene loop finishes. -/
def finalRun (gen : GenOracle) (analysis : AnalysisResult) (aspect : String) :
    RunState :=
  (runTrace gen analysis aspect).getLastD (initRun analysis)

/-- The calls issued over a whole run. -/
def runCalls (gen : GenOracle) (analysis : AnalysisResult) (aspect : String) :
    List (Nat × GenCall) :=
  let st0 := initRun analysis
  callTrace gen analysis.characters analysis.visualStyle aspect
    (List.range st0.scenes.length) st0

/-! ### Basic lemmas on the loop -/

theorem length_modifyAt (f : ScenePrompt → ScenePrompt) (i : Nat)
    (l : List ScenePrompt) : (modifyAt f i l).length = l.length := by
  induction l generalizing i with
  | nil => cases i <;> rfl
  | cons s rest ih =>
    cases i with
    | zero => rfl
    | succ n => simpa [modifyAt] using ih n

theorem get?_modifyAt_ne (f : ScenePrompt → ScenePrompt) {i j : Nat}
    (h : j ≠ i) (l : List ScenePrompt) :
    (modifyAt f i l).get? j = l.get? j := by
  induction l generalizing i j with
  | nil => cases i <;> rfl
  | cons s rest ih =>
    cases i with
    | zero =>
      cases j with
      | zero => exact absurd rfl h
      | succ m => rfl
    | succ n =>
      cases j with
      | zero => rfl
      | succ m =>
        simpa [modifyAt] using ih (fun hc => h (by omega)) (i := n)

theorem get?_modifyAt_eq (f : ScenePrompt → ScenePrompt) (i : Nat)
    (l : List ScenePrompt) :
    (modifyAt f i l).get? i = (l.get? i).map f := by
  induction l generalizing i with
  | nil => cases i <;> rfl
  | cons s rest ih =>
    cases i with
    | zero => rfl
    | succ n => simpa [modifyAt] using ih n

theorem scenes_stepScene (gen : GenOracle) (characters : List CharacterInfo)
    (visualStyle aspect : String) (i : Nat) (st : RunState) :
    (stepScene gen characters visualStyle aspect i st).scenes =
      modifyAt (applyOutcome (gen i (mkGenCall characters visualStyle aspect (sceneAt st i)))) i
        (modifyAt (fun s => { s with status := Status.generating }) i st.scenes) := rfl

theorem length_scenes_stepScene (gen : GenOracle) (characters : List CharacterInfo)
    (visualStyle aspect : String) (i : Nat) (st : RunState) :
    (stepScene gen characters visualStyle aspect i st).scenes.length =
      st.scenes.length := by
  simp [scenes_stepScene, length_modifyAt]

theorem total_stepScene (gen : GenOracle) (characters : List CharacterInfo)
    (visualStyle aspect : String) (i : Nat) (st : RunState) :
    (stepScene gen characters visualStyle aspect i st).total = st.total := rfl

theorem current_stepScene (gen : GenOracle) (characters : List CharacterInfo)
    (visualStyle aspect : String) (i : Nat) (st : RunState) :
    (stepScene gen characters visualStyle aspect i st).current = i + 1 := rfl

theorem get?_stepScene_ne (gen : GenOracle) (characters : List CharacterInfo)
    (visualStyle aspect : String) {i j : Nat} (h : j ≠ i) (st : RunState) :
    (stepScene gen characters visualStyle aspect i st).scenes.get? j =
      st.scenes.get? j := by
  rw [scenes_stepScene, get?_modifyAt_ne _ h, get?_modifyAt_ne _ h]

/-- The outcome a single loop iteration assigns to its scene, as a function
of the scene's fields alone. -/
def processOutcome (gen : GenOracle) (characters : List CharacterInfo)
    (visualStyle aspect : String) (i : Nat) (s : ScenePrompt) : ScenePrompt :=
  applyOutcome (gen i (mkGenCall characters visualStyle aspect s))
    { s with status := Status.generating }

theorem sceneAt_eq (st : RunState) (i : Nat) (s : ScenePrompt)
    (hs : st.scenes.get? i = some s) : sceneAt st i = s := by
  unfold sceneAt
  rw [hs]
  rfl

theorem get?_stepScene_eq (gen : GenOracle) (characters : List CharacterInfo)
    (visualStyle aspect : String) (i : Nat) (st : RunState) (s : ScenePrompt)
    (hs : st.scenes.get? i = some s) :
    (stepScene gen characters visualStyle aspect i st).scenes.get? i =
      some (processOutcome gen characters visualStyle aspect i s) := by
  rw [scenes_stepScene, get?_modifyAt_eq, get?_modifyAt_eq, hs,
    sceneAt_eq st i s hs]
  rfl

theorem runEnd_append (gen : GenOracle) (characters : List CharacterInfo)
    (visualStyle aspect : String) (a b : List Nat) (st : RunState) :
    runEnd gen characters visualStyle aspect (a ++ b) st =
      runEnd gen characters visualStyle aspect b
        (runEnd gen characters visualStyle aspect a st) := by
  induction a generalizing st with
  | nil => rfl
  | cons i rest ih => simp [runEnd, ih]

theorem runEnd_get?_not_mem (gen : GenOracle) (characters : List CharacterInfo)
    (visualStyle aspect : String) (idxs : List Nat) (st : RunState) (j : Nat)
    (hj : j ∉ idxs) :
    (runEnd gen characters visualStyle aspect idxs st).scenes.get? j =
      st.scenes.get? j := by
  induction idxs generalizing st with
  | nil => rfl
  | cons i rest ih =>
    have hji : j ≠ i := fun hc => hj (hc ▸ List.mem_cons_self i rest)
    have hjr : j ∉ rest := fun hc => hj (List.mem_cons_of_mem i hc)
    rw [runEnd, ih _ hjr, get?_stepScene_ne gen characters visualStyle aspect hji]

theorem length_runEnd (gen : GenOracle) (characters : List CharacterInfo)
    (visualStyle aspect : String) (idxs : List Nat) (st : RunState) :
    (runEnd gen characters visualStyle aspect idxs st).scenes.length =
      st.scenes.length := by
  induction idxs generalizing st with
  | nil => rfl
  | cons i rest ih =>
    rw [runEnd, ih, length_scenes_stepScene]

theorem total_runEnd (gen : GenOracle) (characters : List CharacterInfo)
    (visualStyle aspect : String) (idxs : List Nat) (st : RunState) :
    (runEnd gen characters visualStyle aspect idxs st).total = st.total := by
  induction idxs generalizing st with
  | nil => rfl
  | cons i rest ih =>
    rw [runEnd, ih, total_stepScene]

theorem runEnd_get?_mem (gen : GenOracle) (characters : List CharacterInfo)
    (visualStyle aspect : String) (idxs : List Nat) (st : RunState) (j : Nat)
    (hnodup : idxs.Nodup) (hmem : j ∈ idxs) (hlt : j < st.scenes.length) :
    (runEnd gen characters visualStyle aspect idxs st).scenes.get? j =
      (st.scenes.get? j).map (processOutcome gen characters visualStyle aspect j) := by
  induction idxs generalizing st with
  | nil => exact absurd hmem (List.not_mem_nil j)
  | cons i rest ih =>
    have hnr : rest.Nodup := (List.nodup_cons.mp hnodup).2
    have hir : i ∉ rest := (List.nodup_cons.mp hnodup).1
    rcases List.mem_cons.mp hmem with hji | hjr
    · subst hji
      rw [runEnd, runEnd_get?_not_mem gen characters visualStyle aspect rest _ j hir]
      rcases h : st.scenes.get? j with _ | s
      · exact absurd hlt (by simpa using List.get?_eq_none.mp h)
      · rw [get?_stepScene_eq gen characters visualStyle aspect j st s h]
        rfl
    · have hji : j ≠ i := fun hc => hir (hc ▸ hjr)
      rw [runEnd, ih _ hnr hjr
        (by rw [length_scenes_stepScene]; exact hlt),
        get?_stepScene_ne gen characters visualStyle aspect hji]

/-- The state after the first `k` scenes of a run have been processed. -/
def afterScenes (gen : GenOracle) (analysis : AnalysisResult) (aspect : String)
    (k : Nat) : RunState :=
  runEnd gen analysis.characters analysis.visualStyle aspect (List.range k)
    (initRun analysis)

theorem afterScenes_succ (gen : GenOracle) (analysis : AnalysisResult)
    (aspect : String) (k : Nat) :
    afterScenes gen analysis aspect (k + 1) =
      stepScene gen analysis.characters analysis.visualStyle aspect k
        (afterScenes gen analysis aspect k) := by
  unfold afterScenes
  rw [List.range_succ, runEnd_append]
  rfl

theorem current_afterScenes (gen : GenOracle) (analysis : AnalysisResult)
    (aspect : String) (k : Nat) :
    (afterScenes gen analysis aspect k).current = k := by
  induction k with
  | zero => rfl
  | succ n _ => rw [afterScenes_succ, current_stepScene]

theorem total_afterScenes (gen : GenOracle) (analysis : AnalysisResult)
    (aspect : String) (k : Nat) :
    (afterScenes gen analysis aspect k).total = analysis.scenes.length := by
  unfold afterScenes
  rw [total_runEnd]
  simp [initRun]

theorem runLoop_getLastD (gen : GenOracle) (characters : List CharacterInfo)
    (visualStyle aspect : String) (idxs : List Nat) (st : RunState) :
    (runLoop gen characters visualStyle aspect idxs st).getLastD st =
      runEnd gen characters visualStyle aspect idxs st := by
  induction idxs generalizing st with
  | nil => rfl
  | cons i rest ih =>
    rw [runLoop, runEnd]
    rw [List.getLastD_cons, List.getLastD_cons, List.getLastD_cons]
    exact ih _

theorem finalRun_eq_runEnd (gen : GenOracle) (analysis : AnalysisResult)
    (aspect : String) :
    finalRun gen analysis aspect =
      runEnd gen analysis.characters analysis.visualStyle aspect
        (List.range (initRun analysis).scenes.length) (initRun analysis) := by
  unfold finalRun runTrace
  rw [List.getLastD_cons]
  exact runLoop_getLastD gen analysis.characters analysis.visualStyle aspect _ _

theorem finalRun_eq_afterScenes (gen : GenOracle) (analysis : AnalysisResult)
    (aspect : String) :
    finalRun gen analysis aspect =
      afterScenes gen analysis aspect analysis.scenes.length := by
  rw [finalRun_eq_runEnd]
  unfold afterScenes
  simp [initRun]

theorem callTrace_map_fst (gen : GenOracle) (characters : List CharacterInfo)
    (visualStyle aspect : String) (idxs : List Nat) (st : RunState) :
    (callTrace gen characters visualStyle aspect idxs st).map Prod.fst = idxs := by
  induction idxs generalizing st with
  | nil => rfl
  | cons i rest ih => simp [callTrace, ih]

theorem get?_initRun (analysis : AnalysisResult) (j : Nat) :
    (initRun analysis).scenes.get? j =
      (analysis.scenes.get? j).map fun s => { s with status := Status.pending } := by
  simp [initRun, List.getElem?_map]

/-- C3: over a whole run, exactly one generation call is issued per scene,
strictly in list order, for every oracle (so a failing scene never halts
the loop); the final record of scene `j` is a function of scene `j`'s own
initial data alone, and replacing the oracle's answers on all other scenes
(e.g. making any scene `i ≠ j` fail) leaves scene `j`'s outcome unchanged. -/
theorem failure_isolation (analysis : AnalysisResult) (gen gen2 : GenOracle)
    (aspect : String) :
    (runCalls gen analysis aspect).map Prod.fst = List.range analysis.scenes.length
    ∧ (∀ j s, (initRun analysis).scenes.get? j = some s →
        (finalRun gen analysis aspect).scenes.get? j =
          some (processOutcome gen analysis.characters analysis.visualStyle aspect j s))
    ∧ (∀ j, (∀ c, gen j c = gen2 j c) →
        (finalRun gen analysis aspect).scenes.get? j =
          (finalRun gen2 analysis aspect).scenes.get? j) := by
  have hlen : (initRun analysis).scenes.length = analysis.scenes.length := by
    simp [initRun]
  refine ⟨?_, ?_, ?_⟩
  · unfold runCalls
    rw [callTrace_map_fst, hlen]
  · intro j s hs
    have hj : j < (initRun analysis).scenes.length := by
      rcases Nat.lt_or_ge j (initRun analysis).scenes.length with h | h
      · exact h
      · rw [List.get?_eq_none.mpr h] at hs; cases hs
    rw [finalRun_eq_runEnd,
      runEnd_get?_mem _ _ _ _ _ _ _ (List.nodup_range _) (List.mem_range.mpr hj) hj,
      hs]
    rfl
  · intro j hagree
    rcases Nat.lt_or_ge j (initRun analysis).scenes.length with hj | hj
    · rcases h : (initRun analysis).scenes.get? j with _ | s
      · exact absurd hj (by simpa using List.get?_eq_none.mp h)
      · rw [finalRun_eq_runEnd,
          runEnd_get?_mem _ _ _ _ _ _ _ (List.nodup_range _) (List.mem_range.mpr hj) hj,
          finalRun_eq_runEnd,
          runEnd_get?_mem _ _ _ _ _ _ _ (List.nodup_range _) (List.mem_range.mpr hj) hj,
          h]
        simp [processOutcome, hagree]
    · rw [finalRun_eq_runEnd, finalRun_eq_runEnd]
      have h1 : (runEnd gen analysis.characters analysis.visualStyle aspect
          (List.range (initRun analysis).scenes.length) (initRun analysis)).scenes.get? j = none := by
        apply List.get?_eq_none.mpr
        rw [length_runEnd]
        exact hj
      have h2 : (runEnd gen2 analysis.characters analysis.visualStyle aspect
          (List.range (initRun analysis).scenes.length) (initRun analysis)).scenes.get? j = none := by
        apply List.get?_eq_none.mpr
        rw [length_runEnd]
        exact hj
      rw [h1, h2]

/-- C5: the progress counter starts at `{ current := 0, total := n }`,
advances by exactly one per processed scene, stays strictly below `total`
while scenes remain, and reaches `current = total` exactly when the loop
finishes — all regardless of each scene's outcome. -/
theorem progress_accounting (analysis : AnalysisResult) (gen : GenOracle)
    (aspect : String) :
    (initRun analysis).current = 0
    ∧ (initRun analysis).total = analysis.scenes.length
    ∧ (∀ k, k < analysis.scenes.length →
        (afterScenes gen analysis aspect (k + 1)).current =
          (afterScenes gen analysis aspect k).current + 1)
    ∧ (∀ k, k < analysis.scenes.length →
        (afterScenes gen analysis aspect k).current <
          (afterScenes gen analysis aspect k).total)
    ∧ finalRun gen analysis aspect = afterScenes gen analysis aspect analysis.scenes.length
    ∧ (finalRun gen analysis aspect).current = (finalRun gen analysis aspect).total := by
  refine ⟨rfl, by simp [initRun], ?_, ?_,
    finalRun_eq_afterScenes gen analysis aspect, ?_⟩
  · intro k _
    rw [current_afterScenes, current_afterScenes]
  · intro k hk
    rw [current_afterScenes, total_afterScenes]
    exact hk
  · rw [finalRun_eq_afterScenes, current_afterScenes, total_afterScenes]

/-! ### Scene-state invariant and legal transitions -/

/-- The per-scene field invariant: `imageUrl` is populated exactly on
`completed` scenes and `error` exactly on `error` scenes. -/
def sceneOk (s : ScenePrompt) : Prop :=
  (s.imageUrl.isSome = true ↔ s.status = Status.completed) ∧
    (s.error.isSome = true ↔ s.status = Status.error)

def scenesOk (st : RunState) : Prop :=
  ∀ j s, st.scenes.get? j = some s → sceneOk s

/-- All scenes whose index lies in `idxs` are still `pending`. -/
def pendingOn (st : RunState) (idxs : List Nat) : Prop :=
  ∀ i ∈ idxs, ∀ s, st.scenes.get? i = some s → s.status = Status.pending

theorem scenesOk_setGenerating (i : Nat) (st : RunState) (hok : scenesOk st)
    (hpend : ∀ s, st.scenes.get? i = some s → s.status = Status.pending) :
    scenesOk (setGenerating i st) := by
  intro j s hs
  by_cases hji : j = i
  · subst hji
    rw [setGenerating] at hs
    rw [get?_modifyAt_eq] at hs
    rcases h0 : st.scenes.get? j with _ | s0
    · rw [h0] at hs; cases hs
    · rw [h0] at hs
      cases hs
      have hp := hpend s0 h0
      rcases hok j s0 h0 with ⟨hurl, herr⟩
      constructor
      · simp only []
        constructor
        · intro hsome
          have := hurl.mp hsome
          rw [hp] at this; cases this
        · intro hcontra; cases hcontra
      · simp only []
        constructor
        · intro hsome
          have := herr.mp hsome
          rw [hp] at this; cases this
        · intro hcontra; cases hcontra
  · rw [setGenerating] at hs
    rw [get?_modifyAt_ne _ hji] at hs
    exact hok j s hs

theorem scenesOk_setTerminal_setGenerating (r : Option String) (i : Nat)
    (st : RunState) (hok : scenesOk st)
    (hpend : ∀ s, st.scenes.get? i = some s → s.status = Status.pending) :
    scenesOk (setTerminal r i (setGenerating i st)) := by
  intro j s hs
  by_cases hji : j = i
  · subst hji
    rw [setTerminal] at hs
    rw [get?_modifyAt_eq] at hs
    rcases h1 : (setGenerating j st).scenes.get? j with _ | s1
    · rw [h1] at hs; cases hs
    · rw [h1] at hs
      cases hs
      rw [setGenerating, get?_modifyAt_eq] at h1
      rcases h0 : st.scenes.get? j with _ | s0
      · rw [h0] at h1; cases h1
      · rw [h0] at h1
        cases h1
        have hp := hpend s0 h0
        rcases hok j s0 h0 with ⟨hurl, herr⟩
        have hu0 : s0.imageUrl = none := by
          rcases h : s0.imageUrl with _ | u
          · rfl
          · have := hurl.mp (by rw [h]; rfl)
            rw [hp] at this; cases this
        have he0 : s0.error = none := by
          rcases h : s0.error with _ | e
          · rfl
          · have := herr.mp (by rw [h]; rfl)
            rw [hp] at this; cases this
        cases r with
        | some url =>
          constructor
          · simp [applyOutcome]
          · simp [applyOutcome, he0]
        | none =>
          constructor
          · simp [applyOutcome, hu0]
          · simp [applyOutcome]
  · rw [setTerminal] at hs
    rw [get?_modifyAt_ne _ hji] at hs
    exact scenesOk_setGenerating i st hok hpend j s hs

theorem scenes_setProgressCurrent (i : Nat) (st : RunState) :
    (setProgressCurrent i st).scenes = st.scenes := rfl

theorem scenesOk_runLoop (gen : GenOracle) (characters : List CharacterInfo)
    (visualStyle aspect : String) :
    ∀ (idxs : List Nat) (st : RunState), idxs.Nodup → scenesOk st →
      pendingOn st idxs →
      ∀ st2 ∈ runLoop gen characters visualStyle aspect idxs st, scenesOk st2 := by
  intro idxs
  induction idxs with
  | nil => intro st _ _ _ st2 h; cases h
  | cons i rest ih =>
    intro st hnodup hok hpend st2 hmem
    have hnr : rest.Nodup := (List.nodup_cons.mp hnodup).2
    have hir : i ∉ rest := (List.nodup_cons.mp hnodup).1
    have hpi : ∀ s, st.scenes.get? i = some s → s.status = Status.pending :=
      hpend i (List.mem_cons_self i rest)
    have hok1 : scenesOk (setGenerating i st) := scenesOk_setGenerating i st hok hpi
    have hok2 : scenesOk (setTerminal
        (gen i (mkGenCall characters visualStyle aspect (sceneAt st i))) i
        (setGenerating i st)) :=
      scenesOk_setTerminal_setGenerating _ i st hok hpi
    have hok3 : scenesOk (stepScene gen characters visualStyle aspect i st) := by
      intro j s hs
      exact hok2 j s hs
    rw [runLoop] at hmem
    rcases List.mem_cons.mp hmem with h1 | hmem
    · exact h1 ▸ hok1
    rcases List.mem_cons.mp hmem with h2 | hmem
    · exact h2 ▸ hok2
    rcases List.mem_cons.mp hmem with h3 | hmem
    · exact h3 ▸ hok3
    · refine ih (stepScene gen characters visualStyle aspect i st) hnr hok3 ?_ st2 hmem
      intro i2 hi2 s hs
      have hne : i2 ≠ i := fun hc => hir (hc ▸ hi2)
      rw [get?_stepScene_ne gen characters visualStyle aspect hne] at hs
      exact hpend i2 (List.mem_cons_of_mem i hi2) s hs

theorem scenesOk_initRun (analysis : AnalysisResult)
    (hinit : ∀ s ∈ analysis.scenes, s.imageUrl = none ∧ s.error = none) :
    scenesOk (initRun analysis) := by
  intro j s hs
  rw [get?_initRun] at hs
  rcases h0 : analysis.scenes.get? j with _ | s0
  · rw [h0] at hs; cases hs
  · rw [h0] at hs
    cases hs
    rcases hinit s0 (List.get?_mem h0) with ⟨hu, he⟩
    constructor
    · simp [hu]
    · simp [he]

theorem pendingOn_initRun (analysis : AnalysisResult) (idxs : List Nat) :
    pendingOn (initRun analysis) idxs := by
  intro i _ s hs
  rw [get?_initRun] at hs
  rcases h0 : analysis.scenes.get? i with _ | s0
  · rw [h0] at hs; cases hs
  · rw [h0] at hs; cases hs; rfl

/-- C2: along every observable state of a run started on scenes whose
`imageUrl` and `error` are unset, every scene's status is one of the four
lifecycle values, `imageUrl` is populated iff the scene is `completed`,
and `error` is populated iff the scene is `error`. -/
theorem scene_state_invariant (analysis : AnalysisResult) (gen : GenOracle)
    (aspect : String)
    (hinit : ∀ s ∈ analysis.scenes, s.imageUrl = none ∧ s.error = none) :
    ∀ st ∈ runTrace gen analysis aspect, ∀ s ∈ st.scenes,
      (s.status = Status.pending ∨ s.status = Status.generating ∨
        s.status = Status.completed ∨ s.status = Status.error)
      ∧ (s.imageUrl.isSome = true ↔ s.status = Status.completed)
      ∧ (s.error.isSome = true ↔ s.status = Status.error) := by
  intro st hst s hs
  have henum : s.status = Status.pending ∨ s.status = Status.generating ∨
      s.status = Status.completed ∨ s.status = Status.error := by
    cases s.status
    · exact Or.inl rfl
    · exact Or.inr (Or.inl rfl)
    · exact Or.inr (Or.inr (Or.inl rfl))
    · exact Or.inr (Or.inr (Or.inr rfl))
  have hok : scenesOk st := by
    rw [runTrace] at hst
    rcases List.mem_cons.mp hst with h0 | hloop
    · exact h0 ▸ scenesOk_initRun analysis hinit
    · exact scenesOk_runLoop gen analysis.characters analysis.visualStyle aspect
        _ _ (List.nodup_range _) (scenesOk_initRun analysis hinit)
        (pendingOn_initRun analysis _) st hloop
  rcases List.mem_iff_get?.mp hs with ⟨j, hj⟩
  exact ⟨henum, hok j s hj⟩

/-! ### Legal status transitions along the trace -/

/-- A single observable step leaves a scene's status unchanged or moves it
along `pending → generating → {completed, error}`. -/
def statusStepOk (a b : Status) : Prop :=
  a = b ∨ (a = Status.pending ∧ b = Status.generating)
    ∨ (a = Status.generating ∧ (b = Status.completed ∨ b = Status.error))

def scenesStepOk (a b : RunState) : Prop :=
  a.scenes.length = b.scenes.length ∧
    ∀ j sa sb, a.scenes.get? j = some sa → b.scenes.get? j = some sb →
      statusStepOk sa.status sb.status

theorem scenesStepOk_setGenerating (i : Nat) (st : RunState)
    (hpend : ∀ s, st.scenes.get? i = some s → s.status = Status.pending) :
    scenesStepOk st (setGenerating i st) := by
  refine ⟨by rw [setGenerating]; exact (length_modifyAt _ _ _).symm, ?_⟩
  intro j sa sb hsa hsb
  by_cases hji : j = i
  · subst hji
    rw [setGenerating, get?_modifyAt_eq, hsa] at hsb
    cases hsb
    exact Or.inr (Or.inl ⟨hpend sa hsa, rfl⟩)
  · rw [setGenerating, get?_modifyAt_ne _ hji, hsa] at hsb
    cases hsb
    exact Or.inl rfl

theorem scenesStepOk_setTerminal (r : Option String) (i : Nat) (st : RunState) :
    scenesStepOk (setGenerating i st) (setTerminal r i (setGenerating i st)) := by
  refine ⟨by rw [setTerminal]; exact (length_modifyAt _ _ _).symm, ?_⟩
  intro j sa sb hsa hsb
  by_cases hji : j = i
  · subst hji
    rw [setTerminal, get?_modifyAt_eq, hsa] at hsb
    cases hsb
    rw [setGenerating, get?_modifyAt_eq] at hsa
    rcases h0 : st.scenes.get? j with _ | s0
    · rw [h0] at hsa; cases hsa
    · rw [h0] at hsa
      cases hsa
      cases r with
      | some url => exact Or.inr (Or.inr ⟨rfl, Or.inl rfl⟩)
      | none => exact Or.inr (Or.inr ⟨rfl, Or.inr rfl⟩)
  · rw [setTerminal, get?_modifyAt_ne _ hji, hsa] at hsb
    cases hsb
    exact Or.inl rfl

theorem scenesStepOk_setProgressCurrent (i : Nat) (st : RunState) :
    scenesStepOk st (setProgressCurrent i st) := by
  refine ⟨rfl, ?_⟩
  intro j sa sb hsa hsb
  rw [scenes_setProgressCurrent, hsa] at hsb
  cases hsb
  exact Or.inl rfl

theorem chain_runLoop (gen : GenOracle) (characters : List CharacterInfo)
    (visualStyle aspect : String) :
    ∀ (idxs : List Nat) (st : RunState), idxs.Nodup → pendingOn st idxs →
      List.Chain' scenesStepOk
        (st :: runLoop gen characters visualStyle aspect idxs st) := by
  intro idxs
  induction idxs with
  | nil => intro st _ _; exact List.chain'_singleton st
  | cons i rest ih =>
    intro st hnodup hpend
    have hnr : rest.Nodup := (List.nodup_cons.mp hnodup).2
    have hir : i ∉ rest := (List.nodup_cons.mp hnodup).1
    have hpi : ∀ s, st.scenes.get? i = some s → s.status = Status.pending :=
      hpend i (List.mem_cons_self i rest)
    rw [runLoop]
    rw [List.chain'_cons, List.chain'_cons, List.chain'_cons]
    refine ⟨scenesStepOk_setGenerating i st hpi,
      scenesStepOk_setTerminal _ i st,
      scenesStepOk_setProgressCurrent i _, ?_⟩
    have hstep : setProgressCurrent i (setTerminal
        (gen i (mkGenCall characters visualStyle aspect (sceneAt st i))) i
        (setGenerating i st)) = stepScene gen characters visualStyle aspect i st := rfl
    rw [hstep]
    refine ih (stepScene gen characters visualStyle aspect i st) hnr ?_
    intro i2 hi2 s hs
    have hne : i2 ≠ i := fun hc => hir (hc ▸ hi2)
    rw [get?_stepScene_ne gen characters visualStyle aspect hne] at hs
    exact hpend i2 (List.mem_cons_of_mem i hi2) s hs

/-- C4: a run starts with every scene uniformly reset to `pending`
(whatever status the analysis step produced), every observable step moves
scene statuses only along `pending → generating → {completed, error}`, and
when the loop finishes no scene is left `pending` or `generating`. -/
theorem run_postcondition (analysis : AnalysisResult) (gen : GenOracle)
    (aspect : String) :
    (∀ s ∈ (initRun analysis).scenes, s.status = Status.pending)
    ∧ List.Chain' scenesStepOk (runTrace gen analysis aspect)
    ∧ (∀ s ∈ (finalRun gen analysis aspect).scenes,
        s.status = Status.completed ∨ s.status = Status.error) := by
  refine ⟨?_, ?_, ?_⟩
  · intro s hs
    rcases List.mem_iff_get?.mp hs with ⟨j, hj⟩
    rw [get?_initRun] at hj
    rcases h0 : analysis.scenes.get? j with _ | s0
    · rw [h0] at hj; cases hj
    · rw [h0] at hj; cases hj; rfl
  · rw [runTrace]
    exact chain_runLoop gen analysis.characters analysis.visualStyle aspect
      _ _ (List.nodup_range _) (pendingOn_initRun analysis _)
  · intro s hs
    rcases List.mem_iff_get?.mp hs with ⟨j, hj⟩
    rw [finalRun_eq_runEnd] at hj
    have hjlt : j < (initRun analysis).scenes.length := by
      rcases Nat.lt_or_ge j (initRun analysis).scenes.length with h | h
      · exact h
      · rw [List.get?_eq_none.mpr (by rw [length_runEnd]; exact h)] at hj
        cases hj
    rw [runEnd_get?_mem _ _ _ _ _ _ _ (List.nodup_range _)
      (List.mem_range.mpr hjlt) hjlt] at hj
    rcases h0 : (initRun analysis).scenes.get? j with _ | s0
    · rw [h0] at hj; cases hj
    · rw [h0] at hj
      cases hj
      unfold processOutcome applyOutcome
      cases gen j (mkGenCall analysis.characters analysis.visualStyle aspect s0) with
      | some url => exact Or.inl rfl
      | none => exact Or.inr rfl

/-! ### Concrete run fixtures -/

def exCharacters : List CharacterInfo :=
  [{ name := "Ayesha", description := "tall, green eyes" },
   { name := "Bilal", description := "short, beard" }]

def exScene0 : ScenePrompt :=
  { id := "s1", originalText := "Ayesha is in the park.",
    refinedPrompt := "A woman in a park", presentCharacters := ["ayesha"],
    status := Status.pending, imageUrl := none, error := none }

def exScene1 : ScenePrompt :=
  { id := "s2", originalText := "Bilal enters.",
    refinedPrompt := "A man enters", presentCharacters := ["Bilal"],
    status := Status.pending, imageUrl := none, error := none }

def exAnalysis : AnalysisResult :=
  { characters := exCharacters, visualStyle := "realistic",
    scenes := [exScene0, exScene1] }

/-- An oracle that fails on the first scene and succeeds on the second. -/
def exGen : GenOracle := fun i _ =>
  if i = 0 then none else some "data:image/png;base64,QUJD"

/-- An oracle agreeing with `exGen` except on scene 0, where it succeeds. -/
def exGen2 : GenOracle := fun i c =>
  if i = 0 then some "data:image/png;base64,WFla" else exGen i c

def exFinalScene : ScenePrompt := sceneAt (finalRun exGen exAnalysis "16:9") 0

theorem scene_state_invariant_witness :
    (∀ s ∈ exAnalysis.scenes, s.imageUrl = none ∧ s.error = none)
    ∧ (∀ st ∈ runTrace exGen exAnalysis "16:9", ∀ s ∈ st.scenes,
        (s.status = Status.pending ∨ s.status = Status.generating ∨
          s.status = Status.completed ∨ s.status = Status.error)
        ∧ (s.imageUrl.isSome = true ↔ s.status = Status.completed)
        ∧ (s.error.isSome = true ↔ s.status = Status.error)) :=
  ⟨by decide, scene_state_invariant exAnalysis exGen "16:9" (by decide)⟩

theorem failure_isolation_witness :
    ((initRun exAnalysis).scenes.get? 0 = some exScene0
      ∧ (finalRun exGen exAnalysis "16:9").scenes.get? 0 =
          some (processOutcome exGen exAnalysis.characters exAnalysis.visualStyle
            "16:9" 0 exScene0))
    ∧ ((∀ c, exGen 1 c = exGen2 1 c)
      ∧ (finalRun exGen exAnalysis "16:9").scenes.get? 1 =
          (finalRun exGen2 exAnalysis "16:9").scenes.get? 1) :=
  ⟨⟨by decide,
    (failure_isolation exAnalysis exGen exGen2 "16:9").2.1 0 exScene0 (by decide)⟩,
   ⟨fun _ => rfl,
    (failure_isolation exAnalysis exGen exGen2 "16:9").2.2 1 (fun _ => rfl)⟩⟩

theorem run_postcondition_witness :
    exFinalScene ∈ (finalRun exGen exAnalysis "16:9").scenes
    ∧ (exFinalScene.status = Status.completed ∨
        exFinalScene.status = Status.error) :=
  ⟨by decide, (run_postcondition exAnalysis exGen "16:9").2.2 exFinalScene (by decide)⟩

theorem progress_accounting_witness :
    0 < exAnalysis.scenes.length
    ∧ (afterScenes exGen exAnalysis "16:9" 1).current =
        (afterScenes exGen exAnalysis "16:9" 0).current + 1 :=
  ⟨by decide, (progress_accounting exAnalysis exGen "16:9").2.2.1 0 (by decide)⟩

/-! ## Artifact Bundler (`downloadAllAsZip`) and single-file export
(`downloadImage`) -/

/-- JavaScript truthiness of an optional string field: defined and
non-empty. -/
def truthyStr : Option String → Bool
  | some u => u != ""
  | none => false

/-- Models the filter predicate of the bundler: `imageUrl` truthy and
status equal to `completed`. -/
def eligibleScene (s : ScenePrompt) : Bool :=
  truthyStr s.imageUrl && (s.status == Status.completed)

/-- Models taking index 1 of the image URL split on commas; the result is
undefined when the URL holds no comma. -/
def base64Part (u : String) : Option String :=
  ((jsSplit ',' u.data).get? 1).map String.mk

structure ZipEntry where
  name : String
  payload : Option String
  deriving DecidableEq, Repr, Inhabited

/-- The archive-entry loop: `i` advances once per eligible scene whether or
not the (always-true after the filter) inner `if (scene.imageUrl)` guard
admits the entry. -/
def zipFiles : Nat → List ScenePrompt → List ZipEntry
  | _, [] => []
  | i, s :: rest =>
    match s.imageUrl with
    | some u =>
      if u = "" then zipFiles (i + 1) rest
      else { name := "scene-" ++ toString (i + 1) ++ ".png",
             payload := base64Part u } :: zipFiles (i + 1) rest
    | none => zipFiles (i + 1) rest

inductive BundleOutcome where
  | noImages
  | archive (entries : List ZipEntry)
  deriving DecidableEq, Repr

def downloadAllAsZip (scenes : List ScenePrompt) : BundleOutcome :=
  let completedScenes := scenes.filter eligibleScene
  if completedScenes.length = 0 then BundleOutcome.noImages
  else BundleOutcome.archive (zipFiles 0 completedScenes)

/-- The user-visible outcome of the zip flow, with archive encoding
(`zip.generateAsync`) as an external collaborator. -/
inductive ZipFlow (β : Type) where
  | alerted (msg : String)
  | downloadTriggered (blob : β)
  | zipFailed (err : String)
  deriving DecidableEq, Repr

/-- Full `downloadAllAsZip` flow; the returned scene list is the state the
handler leaves behind (it never writes to `results`). -/
def downloadAllAsZipFlow {β : Type} (encode : List ZipEntry → Except String β)
    (scenes : List ScenePrompt) : ZipFlow β × List ScenePrompt :=
  let completedScenes := scenes.filter eligibleScene
  if completedScenes.length = 0 then
    (ZipFlow.alerted "No images ready to download yet.", scenes)
  else
    match encode (zipFiles 0 completedScenes) with
    | Except.ok blob => (ZipFlow.downloadTriggered blob, scenes)
    | Except.error e => (ZipFlow.zipFailed e, scenes)

structure DownloadLink where
  href : String
  download : String
  deriving DecidableEq, Repr

/-- Models the single-image export anchor: the raw payload as target and
the 1-based display index in the filename. -/
def downloadImage (url : String) (index : Nat) : DownloadLink :=
  { href := url, download := "scene-" ++ toString (index + 1) ++ ".png" }

/-! ### Bundler lemmas -/

theorem zipFiles_get? (l : List ScenePrompt)
    (hall : ∀ s ∈ l, truthyStr s.imageUrl = true) (i j : Nat) :
    (zipFiles i l).get? j = (l.get? j).map fun s =>
      { name := "scene-" ++ toString (i + j + 1) ++ ".png",
        payload := s.imageUrl.bind base64Part } := by
  induction l generalizing i j with
  | nil => rfl
  | cons s rest ih =>
    have hs := hall s (List.mem_cons_self s rest)
    have hrest : ∀ s2 ∈ rest, truthyStr s2.imageUrl = true := fun s2 h2 =>
      hall s2 (List.mem_cons_of_mem s h2)
    rcases hu : s.imageUrl with _ | u
    · rw [hu] at hs; cases hs
    · have hne : u ≠ "" := by
        rw [hu] at hs
        simpa [truthyStr] using hs
      cases j with
      | zero =>
        simp [zipFiles, hu, hne]
      | succ m =>
        have harith : i + 1 + m + 1 = i + (m + 1) + 1 := by omega
        simp only [zipFiles, hu, if_neg hne, List.get?_cons_succ,
          ih hrest (i + 1) m, harith]

theorem eligible_truthy (scenes : List ScenePrompt) :
    ∀ s ∈ scenes.filter eligibleScene, truthyStr s.imageUrl = true := by
  intro s hs
  have := (List.mem_filter.mp hs).2
  exact (Bool.and_eq_true _ _ |>.mp this).1

/-- C6: whenever anything qualifies, the bundler archives exactly the
scenes that are `completed` with a non-empty `imageUrl`, in scene-list
order, named densely `scene-1 … scene-k` over that successful subset. -/
theorem bundler_selection (scenes : List ScenePrompt)
    (hne : scenes.filter eligibleScene ≠ []) :
    ∃ entries, downloadAllAsZip scenes = BundleOutcome.archive entries
      ∧ ∀ j, entries.get? j = ((scenes.filter eligibleScene).get? j).map fun s =>
          { name := "scene-" ++ toString (j + 1) ++ ".png",
            payload := s.imageUrl.bind base64Part } := by
  refine ⟨zipFiles 0 (scenes.filter eligibleScene), ?_, ?_⟩
  · unfold downloadAllAsZip
    rw [if_neg (by simpa [List.length_eq_zero] using hne)]
  · intro j
    simpa using zipFiles_get? (scenes.filter eligibleScene)
      (eligible_truthy scenes) 0 j

theorem downloadAllAsZipFlow_snd {β : Type}
    (encode : List ZipEntry → Except String β) (scenes : List ScenePrompt) :
    (downloadAllAsZipFlow encode scenes).2 = scenes := by
  unfold downloadAllAsZipFlow
  by_cases h : (scenes.filter eligibleScene).length = 0
  · rw [if_pos h]
  · rw [if_neg h]
    rcases encode (zipFiles 0 (scenes.filter eligibleScene)) with e | b
    · rfl
    · rfl

/-- C7: with no eligible scene the flow raises the "nothing to bundle"
alert, performs no archive-encoding work (its outcome is independent of
the encoder), and leaves the scene state unchanged; when encoding is
attempted and fails, the failure is reported and the scene state is again
unchanged. -/
theorem bundler_empty_and_failure {β : Type} (scenes : List ScenePrompt)
    (encode : List ZipEntry → Except String β) :
    (scenes.filter eligibleScene = [] →
      downloadAllAsZipFlow encode scenes =
        (ZipFlow.alerted "No images ready to download yet.", scenes)
      ∧ ∀ encode2 : List ZipEntry → Except String β,
          downloadAllAsZipFlow encode2 scenes = downloadAllAsZipFlow encode scenes)
    ∧ (∀ e, scenes.filter eligibleScene ≠ [] →
        encode (zipFiles 0 (scenes.filter eligibleScene)) = Except.error e →
        downloadAllAsZipFlow encode scenes = (ZipFlow.zipFailed e, scenes)) := by
  constructor
  · intro hempty
    have hlen : (scenes.filter eligibleScene).length = 0 := by
      rw [hempty]; rfl
    constructor
    · unfold downloadAllAsZipFlow
      rw [if_pos hlen]
    · intro encode2
      unfold downloadAllAsZipFlow
      rw [if_pos hlen, if_pos hlen]
  · intro e hne henc
    have hlen : ¬ (scenes.filter eligibleScene).length = 0 := by
      simpa [List.length_eq_zero] using hne
    unfold downloadAllAsZipFlow
    rw [if_neg hlen, henc]

/-- C8: running the bundler a second time on the scene state left by a
first run yields the identical archive and outcome — same entries, same
order, same names. -/
theorem bundle_idempotent {β : Type} (scenes : List ScenePrompt)
    (encode : List ZipEntry → Except String β) :
    downloadAllAsZip ((downloadAllAsZipFlow encode scenes).2) =
        downloadAllAsZip scenes
    ∧ downloadAllAsZipFlow encode ((downloadAllAsZipFlow encode scenes).2) =
        downloadAllAsZipFlow encode scenes := by
  rw [downloadAllAsZipFlow_snd]
  exact ⟨rfl, rfl⟩

/-! ### Bundler fixtures -/

def bundleUrl1 : String := "data:image/png;base64,QUJD"

def bundleUrl3 : String := "data:image/png;base64,REVG"

def bScene1 : ScenePrompt :=
  { id := "z1", originalText := "o1", refinedPrompt := "p1",
    presentCharacters := [], status := Status.completed,
    imageUrl := some bundleUrl1, error := none }

def bScene2 : ScenePrompt :=
  { id := "z2", originalText := "o2", refinedPrompt := "p2",
    presentCharacters := [], status := Status.error, imageUrl := none,
    error := some "Failed to generate image" }

def bScene3 : ScenePrompt :=
  { id := "z3", originalText := "o3", refinedPrompt := "p3",
    presentCharacters := [], status := Status.completed,
    imageUrl := some bundleUrl3, error := none }

theorem bundler_selection_witness :
    [bScene1, bScene2, bScene3].filter eligibleScene ≠ []
    ∧ ∃ entries,
        downloadAllAsZip [bScene1, bScene2, bScene3] = BundleOutcome.archive entries
        ∧ ∀ j, entries.get? j =
            (([bScene1, bScene2, bScene3].filter eligibleScene).get? j).map fun s =>
              { name := "scene-" ++ toString (j + 1) ++ ".png",
                payload := s.imageUrl.bind base64Part } :=
  ⟨by decide, bundler_selection [bScene1, bScene2, bScene3] (by decide)⟩

/-- A failing archive encoder, used to exercise the error path. -/
def encodeFail : List ZipEntry → Except String Nat := fun _ =>
  Except.error "Failed to create ZIP"

theorem bundler_empty_and_failure_witness :
    ([bScene2].filter eligibleScene = []
      ∧ downloadAllAsZipFlow encodeFail [bScene2] =
          (ZipFlow.alerted "No images ready to download yet.", [bScene2])
      ∧ ∀ encode2 : List ZipEntry → Except String Nat,
          downloadAllAsZipFlow encode2 [bScene2] =
            downloadAllAsZipFlow encodeFail [bScene2])
    ∧ ([bScene1].filter eligibleScene ≠ []
      ∧ encodeFail (zipFiles 0 ([bScene1].filter eligibleScene)) =
          Except.error "Failed to create ZIP"
      ∧ downloadAllAsZipFlow encodeFail [bScene1] =
          (ZipFlow.zipFailed "Failed to create ZIP", [bScene1])) :=
  ⟨⟨by decide,
    ((bundler_empty_and_failure [bScene2] encodeFail).1 (by decide)).1,
    ((bundler_empty_and_failure [bScene2] encodeFail).1 (by decide)).2⟩,
   ⟨by decide, rfl,
    (bundler_empty_and_failure [bScene1] encodeFail).2 "Failed to create ZIP"
      (by decide) rfl⟩⟩

/-- C9: the single-file export names its file after the scene's 1-based
display position in the full scene list and carries the scene's payload
unchanged; on a list whose first scene failed, this original-position
numbering differs from the bundler's dense numbering of the same scene. -/
theorem single_export_naming :
    (∀ url index, downloadImage url index =
      { href := url, download := "scene-" ++ toString (index + 1) ++ ".png" })
    ∧ downloadAllAsZip [bScene2, bScene1] = BundleOutcome.archive
        [{ name := "scene-1.png", payload := base64Part bundleUrl1 }]
    ∧ (downloadImage bundleUrl1 1).download = "scene-2.png"
    ∧ (downloadImage bundleUrl1 1).download ≠ "scene-1.png" := by
  refine ⟨fun url index => rfl, by decide, rfl, by decide⟩

/-! ## Image generation (`geminiService.ts`, `generateImage`)

The Gemini call is external; what the repository owns is the shape of the
extraction from the response: scan the parts of the first candidate (or an
empty list when any link of `candidates?.[0]?.content?.parts` is missing),
return a data URL with a fixed PNG label built from the first part holding
inline data, and raise when there is none. -/

structure InlineData where
  mimeType : Option String
  data : String
  deriving DecidableEq, Repr

structure ResponsePart where
  text : Option String
  inlineData : Option InlineData
  deriving DecidableEq, Repr

structure ResponseContent where
  parts : List ResponsePart
  deriving DecidableEq, Repr

structure ResponseCandidate where
  content : Option ResponseContent
  deriving DecidableEq, Repr

structure GenResponse where
  candidates : Option (List ResponseCandidate)
  deriving DecidableEq, Repr

/-- Models the optional-chaining walk to the part list of the first
candidate, defaulting to the empty list when any link is missing. -/
def responseParts (r : GenResponse) : List ResponsePart :=
  match r.candidates with
  | none => []
  | some cs =>
    match cs.get? 0 with
    | none => []
    | some c0 =>
      match c0.content with
      | none => []
      | some ct => ct.parts

def firstInlineData : List ResponsePart → Option InlineData
  | [] => none
  | p :: rest =>
    match p.inlineData with
    | some d => some d
    | none => firstInlineData rest

def generateImage (r : GenResponse) : Except String String :=
  match firstInlineData (responseParts r) with
  | some d => Except.ok ("data:image/png;base64," ++ d.data)
  | none => Except.error "No image data received from API"

theorem firstInlineData_eq_find? (l : List ResponsePart) :
    firstInlineData l =
      (l.find? fun p => p.inlineData.isSome).bind ResponsePart.inlineData := by
  induction l with
  | nil => rfl
  | cons p rest ih =>
    rcases h : p.inlineData with _ | d
    · simp [firstInlineData, List.find?, h, ih]
    · simp [firstInlineData, List.find?, h]

theorem firstInlineData_eq_none_iff (l : List ResponsePart) :
    firstInlineData l = none ↔ ∀ p ∈ l, p.inlineData = none := by
  induction l with
  | nil => simp [firstInlineData]
  | cons p rest ih =>
    rcases h : p.inlineData with _ | d
    · simp [firstInlineData, h, ih]
    · simp [firstInlineData, h]

theorem jsSplit_sep_free (ch : Char) (l : List Char) (h : ch ∉ l) :
    jsSplit ch l = [l] := by
  induction l with
  | nil => rfl
  | cons c rest ih =>
    have hc : ¬ c = ch := fun hc => h (hc ▸ List.mem_cons_self c rest)
    have hr : ch ∉ rest := fun hr => h (List.mem_cons_of_mem c hr)
    simp [jsSplit, hc, ih hr]

theorem jsSplit_append_sep (ch : Char) (l r : List Char) (h : ch ∉ l) :
    jsSplit ch (l ++ ch :: r) = l :: jsSplit ch r := by
  induction l with
  | nil => simp [jsSplit]
  | cons c rest ih =>
    have hc : ¬ c = ch := fun hc => h (hc ▸ List.mem_cons_self c rest)
    have hr : ch ∉ rest := fun hr => h (List.mem_cons_of_mem c hr)
    simp [jsSplit, hc, ih hr]

theorem base64Part_dataUrl (s : String) (h : (',' : Char) ∉ s.data) :
    base64Part ("data:image/png;base64," ++ s) = some s := by
  unfold base64Part
  rw [String.data_append]
  have hpre : ("data:image/png;base64," : String).data =
      ("data:image/png;base64" : String).data ++ [','] := by decide
  rw [hpre, List.append_assoc, List.singleton_append,
    jsSplit_append_sep (',' : Char) _ _ (by decide), jsSplit_sep_free (',' : Char) _ h]
  rfl

/-- C10: `generateImage` raises (with the fixed message) exactly when no
part of the first candidate carries inline data; on success it returns the
first such part's inline data behind the constant `data:image/png;base64,`
label whatever the payload's own type, and the bundler's comma-split
recovers exactly that data. -/
theorem generateImage_spec (r : GenResponse) :
    (generateImage r = Except.error "No image data received from API" ↔
      ∀ p ∈ responseParts r, p.inlineData = none)
    ∧ (∀ p d, (responseParts r).find? (fun q => q.inlineData.isSome) = some p →
        p.inlineData = some d →
        generateImage r = Except.ok ("data:image/png;base64," ++ d.data)
        ∧ ((',' : Char) ∉ d.data.data →
            base64Part ("data:image/png;base64," ++ d.data) = some d.data)) := by
  constructor
  · rw [← firstInlineData_eq_none_iff]
    unfold generateImage
    rcases h : firstInlineData (responseParts r) with _ | d
    · simp
    · simp
  · intro p d hfind hd
    have hfirst : firstInlineData (responseParts r) = some d := by
      rw [firstInlineData_eq_find?, hfind]
      simpa using hd
    constructor
    · unfold generateImage
      rw [hfirst]
    · intro hcomma
      exact base64Part_dataUrl d.data hcomma

def exInline : InlineData := { mimeType := some "image/jpeg", data := "QUJD" }

def exTextPart : ResponsePart := { text := some "hello", inlineData := none }

def exDataPart : ResponsePart := { text := none, inlineData := some exInline }

def exResponse : GenResponse :=
  { candidates := some
      [{ content := some { parts := [exTextPart, exDataPart] } }] }

theorem generateImage_spec_witness :
    ((responseParts exResponse).find? (fun q => q.inlineData.isSome) = some exDataPart
      ∧ exDataPart.inlineData = some exInline
      ∧ (',' : Char) ∉ exInline.data.data)
    ∧ generateImage exResponse =
        Except.ok ("data:image/png;base64," ++ exInline.data)
    ∧ base64Part ("data:image/png;base64," ++ exInline.data) = some exInline.data :=
  ⟨⟨by decide, by decide, by decide⟩,
   ((generateImage_spec exResponse).2 exDataPart exInline (by decide) (by decide)).1,
   ((generateImage_spec exResponse).2 exDataPart exInline (by decide) (by decide)).2
     (by decide)⟩

end VisionBulk
